import Mathlib

/-!
Verification development for the digital-twin backend
(`backend-cpp/src/RingBuffer.h`, `PhysicsEngine.cpp`, `Protocol.h`, `main.cpp`).

The C++ code is shallowly embedded:
* the ring buffer (`RingBuffer.h`) becomes a record of a backing list, head
  and size, with the same modular index arithmetic (`%` on `Nat`; the C++
  `size_t` expressions never underflow for reachable buffers because
  `mSize ≤ Capacity`, so `Nat` subtraction agrees with the unsigned value);
* the JSON codec (`Protocol.h`) is embedded over exact rationals: the
  serializer mirrors the `snprintf` format string (fixed key order, fixed
  fractional digit counts, 512-byte region check), the parser mirrors the
  `nlohmann::json` access pattern where every throwing accessor becomes an
  `Option` failure;
* the physics engine (`PhysicsEngine.cpp`) is embedded over the real
  numbers (the idealized semantics of its `float` arithmetic), with the
  transcendental functions (`exp`, `sin`, `asin`, …) taken from Mathlib;
* the per-session outbound queue of `main.cpp` becomes a small labelled
  transition system on the queue contents and the open/closed flag.
-/

/-! ### Ring buffer (`backend-cpp/src/RingBuffer.h`) -/

/-- State of `RingBuffer<T, Capacity>`: backing array `mData` (length
`Capacity`), write head `mHead`, element count `mSize`. -/
structure RingBuf (T : Type) where
  mData : List T
  mHead : Nat
  mSize : Nat
  deriving Repr, DecidableEq

/-- Construction: `std::array<T, Capacity> mData{}` value-initializes every
slot to the default-constructed `d`; `mHead = 0`, `mSize = 0`. -/
def rbInit (T : Type) (d : T) (cap : Nat) : RingBuf T :=
  ⟨List.replicate cap d, 0, 0⟩

/-- `RingBuffer::push`: write at `mHead`, advance `mHead` mod `Capacity`,
saturate `mSize` at `Capacity`. -/
def rbPush {T : Type} (cap : Nat) (item : T) (rb : RingBuf T) : RingBuf T :=
  ⟨rb.mData.set rb.mHead item,
   (rb.mHead + 1) % cap,
   if rb.mSize < cap then rb.mSize + 1 else rb.mSize⟩

/-- The index into the backing array computed by `RingBuffer::at`:
`(mHead + Capacity - mSize + index) % Capacity`. -/
def rbRealIdx {T : Type} (cap : Nat) (rb : RingBuf T) (index : Nat) : Nat :=
  (rb.mHead + cap - rb.mSize + index) % cap

/-- `RingBuffer::at(index)`: read the backing array at `rbRealIdx`. -/
def rbAt {T : Type} (d : T) (cap : Nat) (rb : RingBuf T) (index : Nat) : T :=
  rb.mData.getD (rbRealIdx cap rb index) d

/-- `RingBuffer::latest()`: read at `(mHead + Capacity - 1) % Capacity`. -/
def rbLatest {T : Type} (d : T) (cap : Nat) (rb : RingBuf T) : T :=
  rb.mData.getD ((rb.mHead + cap - 1) % cap) d

/-- `RingBuffer::oldest()`: defined as `at(0)`. -/
def rbOldest {T : Type} (d : T) (cap : Nat) (rb : RingBuf T) : T :=
  rbAt d cap rb 0

/-- `size()` accessor. -/
def rbSize {T : Type} (rb : RingBuf T) : Nat := rb.mSize

/-- Pushing a whole sequence, oldest first (one `push` per element). -/
def rbPushAll {T : Type} (cap : Nat) (rb : RingBuf T) (xs : List T) : RingBuf T :=
  xs.foldl (fun b x => rbPush cap x b) rb

/-! ### Broadcast pool size and the per-session outbound queue (`main.cpp`) -/

/-- `static constexpr std::size_t kPoolSize = 4;` -/
def kPoolSize : Nat := 4

/-- Observable per-session state: the private outbound queue
`mPendingSlots` (slot identifiers) and whether the session is still open
(not yet `destroy()`ed). -/
structure SessState where
  pending : List Nat
  isOpen : Bool
  deriving Repr, DecidableEq

/-- Events that touch the session's queue on its executor:
the action posted by `sendShared` (`main.cpp:86-93`), and the
completion handler `onWriteSlot` (`main.cpp:139-143`) with or without an
error code. -/
inductive SessEvent where
  | enqueue (slot : Nat)
  | writeOk
  | writeErr
  deriving Repr, DecidableEq

/-- One executor step of the session, read off `main.cpp`:
* `sendShared`'s posted lambda does `mPendingSlots.push_back(s)`
  unconditionally (and starts a write if it was idle — not visible in the
  queue contents);
* `onWriteSlot` with no error pops the front and continues;
* `onWriteSlot` with an error calls `destroy()`, closing the session. -/
def sessStep (s : SessState) (e : SessEvent) : SessState :=
  match e with
  | .enqueue slot => { s with pending := s.pending ++ [slot] }
  | .writeOk => { s with pending := s.pending.tail }
  | .writeErr => { s with isOpen := false }

/-- A freshly accepted session: empty queue, open. -/
def sessInit : SessState := ⟨[], true⟩

/-- Run a sequence of executor events. -/
def sessRun (s : SessState) (es : List SessEvent) : SessState :=
  es.foldl sessStep s

/-! ### Protocol codec (`backend-cpp/src/Protocol.h`) -/

/-- `protocol::StatePayload`, with the `float` fields embedded as exact
rationals and `uint64_t timestampMs` as `Nat`. -/
structure StatePayload where
  rpm : Rat := 0
  angleRad : Rat := 0
  stressPa : Rat := 0
  stressFactor : Rat := 0
  pistonForceN : Rat := 0
  rodForceN : Rat := 0
  tangentialForceN : Rat := 0
  torqueNm : Rat := 0
  sideThrustN : Rat := 0
  timestampMs : Nat := 0
  deriving Repr, DecidableEq

/-- The `d` fractional digits printed after the decimal point for the
scaled magnitude `m` (most significant first), as `printf` pads them. -/
def fracDigitsStr (d m : Nat) : String :=
  String.mk ((List.range d).map (fun i => Char.ofNat (48 + m / 10 ^ (d - 1 - i) % 10)))

/-- Rounding to the nearest integer, `⌊q + 1/2⌋`, written with
`Rat.floor` so that it evaluates by kernel reduction. -/
def roundQ (q : Rat) : Int := Rat.floor (q + 1 / 2)

/-- `printf`-style `%.df` fixed-point rendering of a rational: round
`q·10^d` to the nearest integer and print sign, integer part, a decimal
point and exactly `d` fractional digits (the code only uses `d ∈ {2,4,6}`). -/
def fmtFixed (d : Nat) (q : Rat) : String :=
  let scaled : Int := roundQ (q * (10 : Rat) ^ d)
  let n : Nat := scaled.natAbs
  (if scaled < 0 then "-" else "") ++ Nat.repr (n / 10 ^ d) ++ "." ++ fracDigitsStr d (n % 10 ^ d)

/-- `protocol::serializeState`'s format string (`Protocol.h`): the exact
JSON frame written by `snprintf`, with the fixed key order and per-field
precision. -/
def serializeState (s : StatePayload) : String :=
  "\x7b\"type\":\"state\",\"payload\":\x7b" ++
  "\"rpm\":" ++ fmtFixed 2 s.rpm ++
  ",\"angle_rad\":" ++ fmtFixed 6 s.angleRad ++
  ",\"stress_pa\":" ++ fmtFixed 2 s.stressPa ++
  ",\"stress_factor\":" ++ fmtFixed 6 s.stressFactor ++
  ",\"piston_force_n\":" ++ fmtFixed 2 s.pistonForceN ++
  ",\"rod_force_n\":" ++ fmtFixed 2 s.rodForceN ++
  ",\"tangential_force_n\":" ++ fmtFixed 2 s.tangentialForceN ++
  ",\"torque_nm\":" ++ fmtFixed 4 s.torqueNm ++
  ",\"side_thrust_n\":" ++ fmtFixed 2 s.sideThrustN ++
  ",\"timestamp_ms\":" ++ Nat.repr s.timestampMs ++
  "\x7d\x7d"

/-- The value returned by `protocol::serializeState`: the rendered length
`n` when `n > 0 && n < buf.size()` with `buf.size() = 512`, else `0`. -/
def serializeStateLen (s : StatePayload) : Nat :=
  let n := (serializeState s).length
  if 0 < n ∧ n < 512 then n else 0

/-- A payload whose rendered frame comfortably fits the 512-byte slot. -/
def exPayloadSmall : StatePayload := {}

/-- A payload whose rendered frame overflows the 512-byte slot: every
numeric field at `1e38` (inside `float` range), so the fixed-point
integer parts alone take 9 × 39 characters. -/
def exPayloadBig : StatePayload :=
  { rpm := 10 ^ 38, angleRad := 10 ^ 38, stressPa := 10 ^ 38,
    stressFactor := 10 ^ 38, pistonForceN := 10 ^ 38, rodForceN := 10 ^ 38,
    tangentialForceN := 10 ^ 38, torqueNm := 10 ^ 38, sideThrustN := 10 ^ 38 }

/-- JSON values as held by `nlohmann::json` (numbers as exact rationals). -/
inductive Json where
  | null
  | bool (b : Bool)
  | num (q : Rat)
  | str (s : String)
  | arr (xs : List Json)
  | obj (kvs : List (String × Json))

/-- Lookup in an object's key/value list (first match). -/
def jGetList (kvs : List (String × Json)) (key : String) : Option Json :=
  match kvs with
  | [] => none
  | (k, v) :: rest => if k = key then some v else jGetList rest key

/-- `json::at(key)`: throws (here: `none`) when the value is not an object
or the key is missing. -/
def jGet (j : Json) (key : String) : Option Json :=
  match j with
  | .obj kvs => jGetList kvs key
  | _ => none

/-- `get<std::string>()`: throws (`none`) unless the value is a string. -/
def getStr (j : Json) : Option String :=
  match j with
  | .str s => some s
  | _ => none

/-- `get<uint64_t>()`: `uint64_t` is nlohmann's `number_unsigned_t`, so
the read goes through `get_arithmetic_value`, whose switch covers only
the three JSON number types and throws (`none`) on anything else —
booleans included. -/
def getNum (j : Json) : Option Rat :=
  match j with
  | .num q => some q
  | _ => none

/-- `get<float>()`: `float` is none of nlohmann's `number_float_t`
(`double`), `number_integer_t`, `number_unsigned_t` or `boolean_t`, so
the read uses the generic arithmetic `from_json`, whose switch also
accepts a JSON boolean, converting `true`/`false` to `1.0f`/`0.0f`;
anything else throws (`none`). -/
def getFloat (j : Json) : Option Rat :=
  match j with
  | .num q => some q
  | .bool b => some (if b then 1 else 0)
  | _ => none

/-- `protocol::ClientMsgType`. -/
inductive ClientMsgType where
  | SetRpm
  | Replay
  | Unknown
  deriving Repr, DecidableEq

/-- `protocol::SetRpmPayload`. -/
structure SetRpmPayload where
  rpmTarget : Rat := 0
  deriving Repr, DecidableEq

/-- `protocol::ReplayPayload` (`tMs` keeps the raw JSON number). -/
structure ReplayPayload where
  mode : String := ""
  tMs : Rat := 0
  deriving Repr, DecidableEq

/-- `protocol::ClientMessage`. -/
structure ClientMessage where
  type : ClientMsgType := .Unknown
  setRpm : SetRpmPayload := {}
  replay : ReplayPayload := {}
  deriving Repr, DecidableEq

/-- The message built in the `"set_rpm"` branch. -/
def mkSetRpmMsg (q : Rat) : ClientMessage :=
  { type := .SetRpm, setRpm := ⟨q⟩ }

/-- The message built in the `"replay"` branch. -/
def mkReplayMsg (m : String) (t : Rat) : ClientMessage :=
  { type := .Replay, replay := ⟨m, t⟩ }

/-- `protocol::parseClientMessage`. The argument is the result of
`nlohmann::json::parse` on the inbound text frame (`none` = the parse
threw, i.e. malformed JSON). Every throwing accessor inside the `try`
block propagates to the catch-all and yields `none`; an unrecognized
`type` returns `std::nullopt` directly. -/
def parseClientMessage (pj : Option Json) : Option ClientMessage :=
  match pj with
  | none => none
  | some j =>
    match (jGet j "type").bind getStr with
    | none => none
    | some typeStr =>
      if typeStr = "set_rpm" then
        match ((jGet j "payload").bind (fun p => jGet p "rpm_target")).bind getFloat with
        | none => none
        | some q => some (mkSetRpmMsg q)
      else if typeStr = "replay" then
        match jGet j "payload" with
        | none => none
        | some p =>
          match (jGet p "mode").bind getStr with
          | none => none
          | some m =>
            match jGet p "t_ms" with
            | none => some (mkReplayMsg m 0)
            | some tj =>
              match getNum tj with
              | none => none
              | some t => some (mkReplayMsg m t)
      else none

/-- Field accessor used to state the decoding contract: the `type` string. -/
def typeOf (j : Json) : Option String := (jGet j "type").bind getStr

/-- Field accessor: the raw `payload.rpm_target` field. -/
def rpmTargetFieldOf (j : Json) : Option Json :=
  (jGet j "payload").bind (fun p => jGet p "rpm_target")

/-- Field accessor: `payload.rpm_target` as `get<float>()` reads it — a
JSON number, or a boolean converted to 0/1. -/
def rpmTargetOf (j : Json) : Option Rat :=
  (rpmTargetFieldOf j).bind getFloat

/-- Field accessor: the raw `payload.mode` field (present or not). -/
def modeFieldOf (j : Json) : Option Json :=
  (jGet j "payload").bind (fun p => jGet p "mode")

/-- Field accessor: the string `payload.mode`. -/
def modeOf (j : Json) : Option String := (modeFieldOf j).bind getStr

/-- Field accessor: the raw `payload.t_ms` field. -/
def tMsFieldOf (j : Json) : Option Json :=
  (jGet j "payload").bind (fun p => jGet p "t_ms")

/-- Decoder written from the amended specification words, for comparison
with `parseClientMessage`: a SetRpm command exactly when `type` is
`"set_rpm"` and `payload.rpm_target` is arithmetic for `get<float>()` —
a JSON number, or a boolean converted to 0/1; a Replay command exactly
when `type` is `"replay"`, `payload.mode` is a string, and `payload.t_ms`,
if present, is a JSON number (carrying that number, default 0); nothing
otherwise. -/
def parseClientMessageSpec (j : Json) : Option ClientMessage :=
  if typeOf j = some "set_rpm" then
    match rpmTargetOf j with
    | some q => some (mkSetRpmMsg q)
    | none => none
  else if typeOf j = some "replay" then
    match modeOf j, tMsFieldOf j with
    | some m, none => some (mkReplayMsg m 0)
    | some m, some tj => (getNum tj).map (fun t => mkReplayMsg m t)
    | none, _ => none
  else none

/-- A sanity check value: well-formed `set_rpm` frame. -/
def exSetRpmJson : Json :=
  .obj [("type", .str "set_rpm"), ("payload", .obj [("rpm_target", .num 3000)])]

/-- Counterexample input for the inbound-decoding claim: `type` is
`"replay"` and `payload.mode` is present — but it is the number `5`, not a
string, so `get<std::string>()` throws and the whole frame is dropped. -/
def exReplayBadMode : Json :=
  .obj [("type", .str "replay"), ("payload", .obj [("mode", .num 5)])]

/-- Counterexample input on the SetRpm side: `payload.rpm_target` is the
boolean `true`, not a number — yet `get<float>()`'s generic arithmetic
conversion accepts it as `1.0f`, so the frame is not dropped. -/
def exSetRpmBoolTarget : Json :=
  .obj [("type", .str "set_rpm"), ("payload", .obj [("rpm_target", .bool true)])]


/-! ### Physics engine (`backend-cpp/src/PhysicsEngine.{h,cpp}`), over ℝ -/

/-- `std::clamp(v, lo, hi)`. -/
noncomputable def stdClamp (v lo hi : ℝ) : ℝ := max lo (min v hi)

/-- `kMass = 2.5f`. -/
noncomputable def kMass : ℝ := 2.5
/-- `kRadius = 0.08f`. -/
noncomputable def kRadius : ℝ := 0.08
/-- `kArea = 0.0004f`. -/
noncomputable def kArea : ℝ := 0.0004
/-- `kCrankThrow = 0.04f`. -/
noncomputable def kCrankThrow : ℝ := 0.04
/-- `kConRodLength = 0.128f`. -/
noncomputable def kConRodLength : ℝ := 0.128
/-- `kPistonMass = 0.4f`. -/
noncomputable def kPistonMass : ℝ := 0.4
/-- `kLambda = kCrankThrow / kConRodLength`. -/
noncomputable def kLambda : ℝ := kCrankThrow / kConRodLength
/-- `kTau = 0.35f`. -/
noncomputable def kTau : ℝ := 0.35
/-- `kRpmMin = 0.0f`. -/
noncomputable def kRpmMin : ℝ := 0
/-- `kRpmMax = 8000.0f`. -/
noncomputable def kRpmMax : ℝ := 8000
/-- `kDefaultRpm = 1200.0f`. -/
noncomputable def kDefaultRpm : ℝ := 1200
/-- `kTwoPi = 2.0f * π` (the idealized value of the float constant). -/
noncomputable def kTwoPi : ℝ := 2 * Real.pi
/-- `kDt = 0.01f` (100 Hz). -/
noncomputable def kDt : ℝ := 0.01
/-- `kHistorySize = 1000` (10 s at 100 Hz). -/
def kHistorySize : Nat := 1000

/-- `PhysicsEngine::computeStressMaxPa`. -/
noncomputable def computeStressMaxPa : ℝ :=
  let omegaMax := kRpmMax * kTwoPi / 60
  let forceMax := kMass * kRadius * omegaMax * omegaMax
  forceMax / kArea

/-- `1 - exp(-dt / tau)`, the smoothing gain of `PhysicsEngine::step`. -/
noncomputable def alphaLag : ℝ := 1 - Real.exp (-(kDt / kTau))

/-- The RPM update of one `step()` (`PhysicsEngine.cpp:30-32`):
first-order lag toward the target, then clamp to `[kRpmMin, kRpmMax]`. -/
noncomputable def rpmStep (rpm target : ℝ) : ℝ :=
  stdClamp (rpm + (target - rpm) * alphaLag) kRpmMin kRpmMax

/-- `rpmStep` iterated `k` times from the engine's initial `mRpm = 0`,
with a constant target. -/
noncomputable def rpmIter (target : ℝ) : Nat → ℝ
  | 0 => 0
  | k + 1 => rpmStep (rpmIter target k) target

/-- The angle normalization of `step()` (`PhysicsEngine.cpp:37-38`): one
conditional subtraction of `2π`, then one conditional addition of `2π` —
not a full reduction mod `2π`. -/
noncomputable def wrapAngle (a : ℝ) : ℝ :=
  let a1 := if a ≥ kTwoPi then a - kTwoPi else a
  if a1 < 0 then a1 + kTwoPi else a1

/-- The angle update of one `step()` as a function of the previous angle
and the tick's (already smoothed and clamped) rpm:
`mOmegaRadS = rpm·2π/60`; `mAngleRad += mOmegaRadS·dt`; then wrap. -/
noncomputable def angleStep (a rpm : ℝ) : ℝ :=
  wrapAngle (a + rpm * kTwoPi / 60 * kDt)

/-- Angle states reachable by the tick loop when, as in the claim, the
tick's rpm is allowed to be any value of `[0, 8000]`: start at the
engine's initial `mAngleRad = 0` and apply any number of `angleStep`s. -/
inductive angleReach : ℝ → Prop where
  | init : angleReach 0
  | step (a rpm : ℝ) : angleReach a → 0 ≤ rpm → rpm ≤ 8000 →
      angleReach (angleStep a rpm)

/-- The per-tick mutable state of `PhysicsEngine` (the `float` members
mutated by `step()`; `mStressMaxPa` is the construction-time constant
`computeStressMaxPa`). -/
structure PhysState where
  mRpm : ℝ
  mRpmTarget : ℝ
  mAngleRad : ℝ
  mOmegaRadS : ℝ
  mStressPa : ℝ
  mStressFactor : ℝ
  mPistonForceN : ℝ
  mRodForceN : ℝ
  mTangentialForceN : ℝ
  mTorqueNm : ℝ
  mSideThrustN : ℝ

/-- Member initializers of `PhysicsEngine` (all force/state floats start
at `0.0f`, `mRpmTarget` at `kDefaultRpm`). -/
noncomputable def physInit : PhysState :=
  ⟨0, kDefaultRpm, 0, 0, 0, 0, 0, 0, 0, 0, 0⟩

/-- `PhysicsEngine::step()` (`PhysicsEngine.cpp:25-90`), as a pure
function of the previous state and the loaded atomic rpm target. The
published `StatePayload` copies the corresponding fields, so the
per-tick telemetry invariants are stated on the result's fields. -/
noncomputable def physStep (s : PhysState) (target : ℝ) : PhysState :=
  let rpm := rpmStep s.mRpm target
  let omega := rpm * kTwoPi / 60
  let angle := wrapAngle (s.mAngleRad + omega * kDt)
  let force := kMass * kRadius * omega * omega
  let stressPa := force / kArea
  let stressFactor := stdClamp (stressPa / computeStressMaxPa) 0 1
  let omega2 := omega * omega
  let cosTheta := Real.cos angle
  let sinTheta := Real.sin angle
  let pistonAccel := -kCrankThrow * omega2 * (cosTheta + kLambda * Real.cos (2 * angle))
  let pistonForceN := kPistonMass * pistonAccel
  let sinPhi := kLambda * sinTheta
  let phi := Real.arcsin (stdClamp sinPhi (-1) 1)
  let cosPhi := Real.cos phi
  let rodForceN := if cosPhi > 1e-4 then pistonForceN / cosPhi else 0
  let thetaPlusPhi := angle + phi
  let tangentialForceN := rodForceN * Real.sin thetaPlusPhi
  let torqueNm := tangentialForceN * kCrankThrow
  let sideThrustN := if cosPhi > 1e-4 then pistonForceN * sinPhi / cosPhi else 0
  ⟨rpm, target, angle, omega, stressPa, stressFactor,
   pistonForceN, rodForceN, tangentialForceN, torqueNm, sideThrustN⟩

/-- `PhysicsEngine::setRpmTarget`: the value stored into the atomic —
the input clamped to `[kRpmMin, kRpmMax]`; `rpmTarget()` returns exactly
this stored value. -/
noncomputable def setRpmTarget (target : ℝ) : ℝ :=
  stdClamp target kRpmMin kRpmMax

/-- The stored rpm target right after engine construction
(`mAtomicRpmTarget.store(kDefaultRpm)`). -/
noncomputable def rpmTargetInit : ℝ := kDefaultRpm

/-! ### Engine state as touched by a session's `onRead` (`main.cpp:110-129`) -/

/-- The engine state observable across a control frame: the atomic rpm
target (the only part a session may write), the physics state and the
history ring. -/
structure EngineState where
  atomicRpmTarget : ℝ
  phys : PhysState
  history : RingBuf PhysState

/-- The effect of `WsSession::onRead`'s dispatch on the engine state:
`SetRpm` calls `engine.setRpmTarget(...)`; `Replay` is `break` (no-op);
a dropped frame (`parsed == nullopt`) does nothing. -/
noncomputable def handleParsed (es : EngineState) (m : Option ClientMessage) : EngineState :=
  match m with
  | none => es
  | some msg =>
    match msg.type with
    | .SetRpm => { es with atomicRpmTarget := setRpmTarget (msg.setRpm.rpmTarget : ℝ) }
    | .Replay => es
    | .Unknown => es

/-! ### Helper lemmas -/

/-- Reading any position of a freshly value-initialized backing array
yields the default element. -/
theorem list_getD_replicate {α : Type _} (cap j : Nat) (d : α) :
    (List.replicate cap d).getD j d = d := by
  rcases Nat.lt_or_ge j cap with h | h
  · rw [List.getD_eq_getElem _ _ (by simpa using h)]
    simp
  · exact List.getD_eq_default _ _ (by simpa using h)

/-- `stdClamp` is the identity inside the interval. -/
theorem stdClamp_of_mem {v lo hi : ℝ} (h1 : lo ≤ v) (h2 : v ≤ hi) :
    stdClamp v lo hi = v := by
  unfold stdClamp
  rw [min_eq_left h2, max_eq_right h1]

/-- `stdClamp` lands in the interval. -/
theorem stdClamp_mem {v lo hi : ℝ} (h : lo ≤ hi) :
    lo ≤ stdClamp v lo hi ∧ stdClamp v lo hi ≤ hi :=
  ⟨le_max_left _ _, max_le h (min_le_right _ _)⟩

/-- The smoothing factor `exp(-dt/τ)` lies in `(0, 1)`. -/
theorem expDecay_mem :
    0 < Real.exp (-(kDt / kTau)) ∧ Real.exp (-(kDt / kTau)) < 1 := by
  refine ⟨Real.exp_pos _, ?_⟩
  rw [Real.exp_lt_one_iff]
  unfold kDt kTau
  norm_num

/-- Closed form of the iterated first-order lag from `mRpm = 0`: the
clamp never fires for a target in `[0, 8000]`. -/
theorem rpmIter_closed (T : ℝ) (h0 : 0 ≤ T) (h1 : T ≤ 8000) (k : Nat) :
    rpmIter T k = T * (1 - Real.exp (-(kDt / kTau)) ^ k) := by
  obtain ⟨hq0, hq1⟩ := expDecay_mem
  induction k with
  | zero => simp [rpmIter]
  | succ k ih =>
    have hpow0 : 0 < Real.exp (-(kDt / kTau)) ^ (k + 1) := pow_pos hq0 _
    have hpow1 : Real.exp (-(kDt / kTau)) ^ (k + 1) ≤ 1 :=
      pow_le_one₀ hq0.le hq1.le
    have hlow : 0 ≤ T * (1 - Real.exp (-(kDt / kTau)) ^ (k + 1)) := by nlinarith
    have hhigh : T * (1 - Real.exp (-(kDt / kTau)) ^ (k + 1)) ≤ 8000 := by nlinarith
    rw [rpmIter, ih, rpmStep]
    unfold kRpmMin kRpmMax alphaLag
    rw [show T * (1 - Real.exp (-(kDt / kTau)) ^ k) +
        (T - T * (1 - Real.exp (-(kDt / kTau)) ^ k)) * (1 - Real.exp (-(kDt / kTau)))
        = T * (1 - Real.exp (-(kDt / kTau)) ^ (k + 1)) by ring]
    exact stdClamp_of_mem hlow hhigh

/-! ### Claim C1 — angle normalization -/

/-- C1 counterexample: the angle `11π/6` is reachable (one tick at rpm
5500 from the initial angle 0), and one further `step()` at rpm 7000 —
inside the claimed range `[0, 8000]` — publishes the angle `13π/6 ≥ 2π`:
the single conditional subtraction of `2π` is not a reduction mod `2π`
once `ω·dt > 2π`. -/
theorem angleStep_window_cex :
    angleReach (angleStep 0 5500) ∧ (0:ℝ) ≤ 7000 ∧ (7000:ℝ) ≤ 8000 ∧
    2 * Real.pi ≤ angleStep (angleStep 0 5500) 7000 := by
  have hπ := Real.pi_pos
  have e1 : angleStep 0 5500 = 11 * Real.pi / 6 := by
    simp only [angleStep, wrapAngle, kTwoPi, kDt]
    split_ifs with h1 h2 <;> first | ring1 | linarith
  have e2 : angleStep (11 * Real.pi / 6) 7000 = 13 * Real.pi / 6 := by
    simp only [angleStep, wrapAngle, kTwoPi, kDt]
    split_ifs with h1 h2 <;> first | ring1 | linarith
  refine ⟨angleReach.step 0 5500 angleReach.init (by norm_num) (by norm_num),
    by norm_num, by norm_num, ?_⟩
  rw [e1, e2]
  linarith

/-- C1 (amended): the published crank angle stays in `[0, 2π)` provided
the prior angle is in `[0, 2π)` and the tick's rpm is at most 6000 (so
that the per-tick increment `ω·dt = rpm·2π/60·0.01` is at most `2π` and
the single conditional wrap suffices). -/
theorem angleStep_window (a r : ℝ) (h0 : 0 ≤ a) (h1 : a < 2 * Real.pi)
    (h2 : 0 ≤ r) (h3 : r ≤ 6000) :
    0 ≤ angleStep a r ∧ angleStep a r < 2 * Real.pi := by
  have hπ := Real.pi_pos
  have hrπ1 : 0 ≤ r * Real.pi := mul_nonneg h2 hπ.le
  have hrπ2 : r * Real.pi ≤ 6000 * Real.pi := mul_le_mul_of_nonneg_right h3 hπ.le
  simp only [angleStep, wrapAngle, kTwoPi, kDt]
  split_ifs with hA hB <;> constructor <;> linarith

/-- C1 witness: from angle 0 at rpm 0 the amended invariant is concrete. -/
theorem angleStep_window_witness :
    0 ≤ angleStep 0 0 ∧ angleStep 0 0 < 2 * Real.pi :=
  angleStep_window 0 0 (le_refl 0) (by positivity) (le_refl 0) (by norm_num)

/-! ### Claim C2 — session backpressure -/

/-- C2 counterexample: four broadcast enqueues on a fresh session leave
its outbound queue at length 4 > K−1 = 3 (K = `kPoolSize` = 4) with the
session still open — no queue bound is enforced anywhere in
`sendShared`/`onWriteSlot`. -/
theorem session_backpressure_cex :
    (sessRun sessInit
      [.enqueue 0, .enqueue 1, .enqueue 2, .enqueue 3]).pending.length
        = kPoolSize ∧
    kPoolSize - 1 < (sessRun sessInit
      [.enqueue 0, .enqueue 1, .enqueue 2, .enqueue 3]).pending.length ∧
    (sessRun sessInit
      [.enqueue 0, .enqueue 1, .enqueue 2, .enqueue 3]).isOpen = true := by
  decide

/-- C2 (amended): the code enforces no backpressure bound at all —
enqueuing a broadcast slot always appends it (the queue grows by exactly
one, past any bound) and never changes the session's open state; only a
write error closes the session. -/
theorem session_enqueue_unbounded :
    ∀ (s : SessState) (slot : Nat),
      (sessStep s (.enqueue slot)).pending.length = s.pending.length + 1 ∧
      (sessStep s (.enqueue slot)).isOpen = s.isOpen ∧
      (sessStep s .writeErr).isOpen = false := by
  intro s slot
  refine ⟨?_, rfl, rfl⟩
  simp [sessStep]

/-! ### Claim C3 — RPM first-order lag -/

/-- C3: one `step()` updates the rpm to `rpm + (target − rpm)·α` with
`α = 1 − exp(−dt/τ)` and clamps to `[0, 8000]`; the published rpm
therefore always lies in `[0, 8000]`; and `k` ticks after a step change
of the target from 0 to `T ∈ [0, 8000]` the rpm equals
`T·(1 − exp(−k·dt/τ))` — exactly, hence within `1e−3·T`. -/
theorem rpm_lag_spec :
    (∀ r T : ℝ, rpmStep r T
        = stdClamp (r + (T - r) * (1 - Real.exp (-(kDt / kTau)))) 0 8000) ∧
    (∀ r T : ℝ, 0 ≤ rpmStep r T ∧ rpmStep r T ≤ 8000) ∧
    (∀ (T : ℝ) (k : Nat), 0 ≤ T → T ≤ 8000 →
        |rpmIter T k - T * (1 - Real.exp (-(k * kDt / kTau)))| ≤ 1e-3 * T) := by
  refine ⟨fun r T => rfl, fun r T => ?_, fun T k h0 h1 => ?_⟩
  · have := @stdClamp_mem (r + (T - r) * alphaLag) 0 8000 (by norm_num)
    exact ⟨this.1, this.2⟩
  · have harg : -(k * kDt / kTau) = (k : ℝ) * (-(kDt / kTau)) := by ring
    rw [rpmIter_closed T h0 h1 k, harg, Real.exp_nat_mul, sub_self, abs_zero]
    nlinarith

/-- C3 witness: target 8000 from rest, one tick. -/
theorem rpm_lag_witness :
    |rpmIter 8000 1 - 8000 * (1 - Real.exp (-((1:Nat) * kDt / kTau)))| ≤ 1e-3 * 8000 :=
  rpm_lag_spec.2.2 8000 1 (by norm_num) (by norm_num)

/-! ### Claim C4 — rpm target ingress clamp and default -/

/-- C4: `setRpmTarget(x)` stores exactly `clamp(x, 0, 8000)`, so a
subsequent `rpmTarget()` returns that clamp, which lies in `[0, 8000]`;
at construction the stored target is the default 1200. -/
theorem setRpmTarget_spec :
    (∀ x : ℝ, setRpmTarget x = stdClamp x 0 8000 ∧
      0 ≤ setRpmTarget x ∧ setRpmTarget x ≤ 8000) ∧
    rpmTargetInit = 1200 := by
  refine ⟨fun x => ⟨rfl, ?_⟩, rfl⟩
  have := @stdClamp_mem x 0 8000 (by norm_num)
  exact ⟨this.1, this.2⟩

/-! ### Claim C8 — replay frames do not mutate the engine -/

/-- C8: handling any decoded replay control frame (any mode string, any
`t_ms`) is a no-op on the engine: the rpm target, the physics state and
the history ring are all unchanged. -/
theorem replay_noop (es : EngineState) (m : String) (t : Rat) :
    handleParsed es (some (mkReplayMsg m t)) = es ∧
    (handleParsed es (some (mkReplayMsg m t))).atomicRpmTarget = es.atomicRpmTarget ∧
    (handleParsed es (some (mkReplayMsg m t))).phys = es.phys ∧
    (handleParsed es (some (mkReplayMsg m t))).history = es.history :=
  ⟨rfl, rfl, rfl, rfl⟩

/-! ### Claim C9 — torque/tangential-force relation -/

/-- C9: in every published state, `torque_nm` equals
`tangential_force_n · 0.04` (the crank throw), so the difference is 0,
within `1e−6`; and the tangential force is `F_rod · sin(θ + φ)` with
`φ = asin(clamp(λ·sin θ, −1, 1))` and `F_rod = F_piston / cos φ` when
`cos φ > 1e−4`, else 0. -/
theorem step_torque_spec (s : PhysState) (target : ℝ) :
    |(physStep s target).mTorqueNm
      - (physStep s target).mTangentialForceN * 0.04| < 1e-6 ∧
    (physStep s target).mTangentialForceN
      = (physStep s target).mRodForceN
        * Real.sin ((physStep s target).mAngleRad
          + Real.arcsin (stdClamp (kLambda * Real.sin (physStep s target).mAngleRad) (-1) 1)) ∧
    (physStep s target).mRodForceN
      = (if Real.cos (Real.arcsin
            (stdClamp (kLambda * Real.sin (physStep s target).mAngleRad) (-1) 1)) > 1e-4
         then (physStep s target).mPistonForceN
            / Real.cos (Real.arcsin
                (stdClamp (kLambda * Real.sin (physStep s target).mAngleRad) (-1) 1))
         else 0) := by
  refine ⟨?_, ?_, ?_⟩
  · simp only [physStep, kCrankThrow]
    rw [sub_self, abs_zero]
    norm_num
  · simp only [physStep]
  · simp only [physStep]

/-! ### Claim C10 — accessors on an empty ring are safe -/

/-- C10: on a freshly constructed ring every backing slot holds the
default element; `at(i)` stays in bounds for every `i`; `at(i)`,
`oldest()` and `latest()` all return the default element; `at(0)` (and
`oldest()`) read slot 0 and `latest()` reads slot `capacity − 1`. -/
theorem rb_empty_safe (T : Type) (d : T) (cap : Nat) (hcap : 0 < cap) (i : Nat) :
    (rbInit T d cap).mData.getD i d = d ∧
    rbRealIdx cap (rbInit T d cap) i < cap ∧
    rbAt d cap (rbInit T d cap) i = d ∧
    rbOldest d cap (rbInit T d cap) = d ∧
    rbLatest d cap (rbInit T d cap) = d ∧
    rbRealIdx cap (rbInit T d cap) 0 = 0 ∧
    ((rbInit T d cap).mHead + cap - 1) % cap = cap - 1 := by
  refine ⟨list_getD_replicate cap i d, Nat.mod_lt _ hcap,
    list_getD_replicate cap _ d, list_getD_replicate cap _ d,
    list_getD_replicate cap _ d, ?_, ?_⟩
  · show (0 + cap - 0 + 0) % cap = 0
    simp
  · show (0 + cap - 1) % cap = cap - 1
    rw [Nat.zero_add, Nat.mod_eq_of_lt (by omega)]

/-- C10 witness: a concrete empty ring of capacity 5. -/
theorem rb_empty_safe_witness :
    (rbInit Nat 7 5).mData.getD 3 7 = 7 ∧
    rbRealIdx 5 (rbInit Nat 7 5) 3 < 5 ∧
    rbAt 7 5 (rbInit Nat 7 5) 3 = 7 ∧
    rbOldest 7 5 (rbInit Nat 7 5) = 7 ∧
    rbLatest 7 5 (rbInit Nat 7 5) = 7 ∧
    rbRealIdx 5 (rbInit Nat 7 5) 0 = 0 ∧
    ((rbInit Nat 7 5).mHead + 5 - 1) % 5 = 5 - 1 :=
  rb_empty_safe Nat 7 5 (by decide) 3

/-! ### Claim C5 — ring buffer retention and indexing -/

/-- Reading back the slot just written. -/
theorem getD_set_self {α : Type _} (l : List α) (m : Nat) (a d : α) (h : m < l.length) :
    (l.set m a).getD m d = a := by
  rw [List.getD_eq_getElem _ _ (by simpa using h)]
  simp [List.getElem_set]

/-- Reading a slot other than the one just written. -/
theorem getD_set_ne {α : Type _} (l : List α) (m k : Nat) (a d : α) (h : m ≠ k) :
    (l.set m a).getD k d = l.getD k d := by
  rcases Nat.lt_or_ge k l.length with hk | hk
  · rw [List.getD_eq_getElem _ _ (by simpa using hk), List.getD_eq_getElem _ _ hk]
    simp [List.getElem_set, h]
  · rw [List.getD_eq_default _ _ (by simpa using hk), List.getD_eq_default _ _ hk]

/-- Adding a nonzero offset smaller than the modulus moves the residue. -/
theorem add_mod_ne_self (N c cap : Nat) (h1 : 1 ≤ c) (h2 : c < cap) :
    (N + c) % cap ≠ N % cap := by
  intro h
  have hmod : Nat.ModEq cap N (N + c) := h.symm
  have hdvd : cap ∣ N + c - N := (Nat.modEq_iff_dvd' (Nat.le_add_right N c)).mp hmod
  rw [Nat.add_sub_cancel_left] at hdvd
  exact absurd (Nat.le_of_dvd (by omega) hdvd) (by omega)

/-- Normalization of the ring's index expression: the head may be taken
mod `cap` before or after the offset arithmetic. -/
theorem realidx_norm (a b c cap : Nat) (h : b ≤ cap) :
    (a % cap + cap - b + c) % cap = (a + (cap - b) + c) % cap := by
  rw [Nat.add_sub_assoc h, Nat.add_assoc, Nat.mod_add_mod, ← Nat.add_assoc]

/-- Invariant of `N` pushes into a fresh ring of capacity `cap > 0`:
head is `N mod cap`, size is `min N cap`, the backing array keeps length
`cap`, and `at(i)` returns the `(N − min N cap + i)`-th pushed element. -/
theorem rbPushAll_inv {T : Type} (d : T) (cap : Nat) (hcap : 0 < cap) (xs : List T) :
    (rbPushAll cap (rbInit T d cap) xs).mHead = xs.length % cap ∧
    (rbPushAll cap (rbInit T d cap) xs).mSize = min xs.length cap ∧
    (rbPushAll cap (rbInit T d cap) xs).mData.length = cap ∧
    (∀ i, i < min xs.length cap →
      rbAt d cap (rbPushAll cap (rbInit T d cap) xs) i
        = xs.getD (xs.length - min xs.length cap + i) d) := by
  induction xs using List.reverseRecOn with
  | nil =>
    refine ⟨by simp [rbPushAll, rbInit], by simp [rbPushAll, rbInit],
      by simp [rbPushAll, rbInit], ?_⟩
    intro i hi
    simp at hi
  | append_singleton xs x ih =>
    obtain ⟨hHead, hSize, hLen, hAt⟩ := ih
    have hstep : rbPushAll cap (rbInit T d cap) (xs ++ [x])
        = rbPush cap x (rbPushAll cap (rbInit T d cap) xs) := by
      simp [rbPushAll, List.foldl_append]
    set rb := rbPushAll cap (rbInit T d cap) xs with hrb
    set N := xs.length with hN
    rw [hstep]
    have hS'le : min (N + 1) cap ≤ cap := Nat.min_le_right _ _
    have hSle : min N cap ≤ cap := Nat.min_le_right _ _
    have hsize' : (if rb.mSize < cap then rb.mSize + 1 else rb.mSize) = min (N + 1) cap := by
      rw [hSize]
      split_ifs with h <;> omega
    refine ⟨?_, ?_, ?_, ?_⟩
    · show (rb.mHead + 1) % cap = (xs ++ [x]).length % cap
      rw [hHead, Nat.mod_add_mod]
      simp
    · show (if rb.mSize < cap then rb.mSize + 1 else rb.mSize) = min (xs ++ [x]).length cap
      rw [hsize']
      simp
    · show (rb.mData.set rb.mHead x).length = cap
      rw [List.length_set, hLen]
    · intro i hi
      simp only [List.length_append, List.length_singleton] at hi ⊢
      simp only [rbAt, rbRealIdx, rbPush]
      rw [hsize', hHead, Nat.mod_add_mod, realidx_norm _ _ _ _ hS'le]
      rcases Nat.lt_or_ge i (min (N + 1) cap - 1) with hilt | hige
      · -- an element that was already present before this push
        set i₀ := i + (min N cap + 1 - min (N + 1) cap) with hi₀
        have hi0 : i₀ < min N cap := by omega
        have hAtOld := hAt i₀ hi0
        simp only [rbAt, rbRealIdx] at hAtOld
        rw [hHead, hSize, realidx_norm _ _ _ _ hSle] at hAtOld
        have hdiv : N + 1 + (cap - min (N + 1) cap) + i = N + (cap - min N cap) + i₀ := by
          omega
        have hne : (N + 1 + (cap - min (N + 1) cap) + i) % cap ≠ N % cap := by
          rw [show N + 1 + (cap - min (N + 1) cap) + i
              = N + (1 + (cap - min (N + 1) cap) + i) from by omega]
          exact add_mod_ne_self _ _ _ (by omega) (by omega)
        rw [getD_set_ne _ _ _ _ _ (Ne.symm hne), hdiv, hAtOld,
          List.getD_append _ _ _ _ (by omega)]
        congr 1
        omega
      · -- the element just pushed
        have hieq : i = min (N + 1) cap - 1 := by omega
        subst hieq
        rw [show N + 1 + (cap - min (N + 1) cap) + (min (N + 1) cap - 1) = N + cap from by omega,
          Nat.add_mod_right,
          getD_set_self _ _ _ _ (by rw [hLen]; exact Nat.mod_lt _ hcap),
          show N + 1 - min (N + 1) cap + (min (N + 1) cap - 1) = N from by omega,
          List.getD_append_right _ _ _ _ (le_refl N)]
        simp

/-- C5: after pushing a sequence `xs` into a fresh ring of capacity
`cap > 0`: if `|xs| > cap` then `size() = cap`, `at(0)` is the
`(|xs| − cap + 1)`-th pushed element (0-based index `|xs| − cap`) and
`at(size()−1)` is the most recently pushed one; if `|xs| ≤ cap` then
`size() = |xs|` and `at(i)` is the `(i+1)`-th pushed element. -/
theorem ring_history_spec (T : Type) (d : T) (cap : Nat) (hcap : 0 < cap) (xs : List T) :
    (cap < xs.length →
      rbSize (rbPushAll cap (rbInit T d cap) xs) = cap ∧
      rbAt d cap (rbPushAll cap (rbInit T d cap) xs) 0 = xs.getD (xs.length - cap) d ∧
      rbAt d cap (rbPushAll cap (rbInit T d cap) xs)
          (rbSize (rbPushAll cap (rbInit T d cap) xs) - 1) = xs.getD (xs.length - 1) d) ∧
    (xs.length ≤ cap →
      rbSize (rbPushAll cap (rbInit T d cap) xs) = xs.length ∧
      ∀ i, i < xs.length →
        rbAt d cap (rbPushAll cap (rbInit T d cap) xs) i = xs.getD i d) := by
  obtain ⟨hHead, hSize, hLen, hAt⟩ := rbPushAll_inv d cap hcap xs
  constructor
  · intro hlt
    have hmin : min xs.length cap = cap := by omega
    have hsz : rbSize (rbPushAll cap (rbInit T d cap) xs) = cap := by
      simp only [rbSize]
      rw [hSize, hmin]
    refine ⟨hsz, ?_, ?_⟩
    · have h0 := hAt 0 (by omega)
      rw [hmin] at h0
      simpa using h0
    · rw [hsz]
      have hc := hAt (cap - 1) (by omega)
      rw [hmin] at hc
      rw [hc]
      congr 1
      omega
  · intro hle
    have hmin : min xs.length cap = xs.length := by omega
    have hsz : rbSize (rbPushAll cap (rbInit T d cap) xs) = xs.length := by
      simp only [rbSize]
      rw [hSize, hmin]
    refine ⟨hsz, fun i hi => ?_⟩
    have hv := hAt i (by omega)
    rw [hmin] at hv
    rw [hv]
    congr 1
    omega

/-- C5 witness: capacity 2, pushes [10, 20, 30] (overflow) and [10]
(partial fill). -/
theorem ring_history_witness :
    rbSize (rbPushAll 2 (rbInit Nat 0 2) [10, 20, 30]) = 2 ∧
    rbAt 0 2 (rbPushAll 2 (rbInit Nat 0 2) [10, 20, 30]) 0
      = [10, 20, 30].getD ([10, 20, 30].length - 2) 0 ∧
    rbAt 0 2 (rbPushAll 2 (rbInit Nat 0 2) [10, 20, 30])
        (rbSize (rbPushAll 2 (rbInit Nat 0 2) [10, 20, 30]) - 1)
      = [10, 20, 30].getD ([10, 20, 30].length - 1) 0 ∧
    rbAt 0 2 (rbPushAll 2 (rbInit Nat 0 2) [10]) 0 = [10].getD 0 0 := by
  have h1 := (ring_history_spec Nat 0 2 (by decide) [10, 20, 30]).1 (by decide)
  have h2 := (ring_history_spec Nat 0 2 (by decide) [10]).2 (by decide)
  exact ⟨h1.1, h1.2.1, h1.2.2, h2.2 0 (by decide)⟩

/-! ### Claim C6 — outbound frame serialization -/

/-- A digit character from a value below 10. -/
theorem char_digit (x : Nat) (h : x < 10) : (Char.ofNat (48 + x)).isDigit = true := by
  interval_cases x <;> decide

/-- The fractional block printed by `fmtFixed` has exactly `d` characters. -/
theorem fracDigitsStr_length (dg m : Nat) : (fracDigitsStr dg m).length = dg := by
  simp [fracDigitsStr, String.length]

/-- Every character of the fractional block is a decimal digit. -/
theorem fracDigitsStr_digits (dg m : Nat) :
    ∀ c ∈ (fracDigitsStr dg m).data, c.isDigit = true := by
  intro c hc
  simp only [fracDigitsStr, String.mk, List.mem_map, List.mem_range] at hc
  obtain ⟨i, _, rfl⟩ := hc
  exact char_digit _ (by omega)

/-- C6: `serializeState` renders exactly the frame
`\x7b"type":"state","payload":\x7b…\x7d\x7d` with the keys in the fixed
order rpm, angle_rad, stress_pa, stress_factor, piston_force_n,
rod_force_n, tangential_force_n, torque_nm, side_thrust_n, timestamp_ms —
rpm/stress_pa/piston_force_n/rod_force_n/tangential_force_n/side_thrust_n
with 2 fractional digits, angle_rad/stress_factor with 6, torque_nm with
4, timestamp_ms as an unsigned integer — every fixed-point field carrying
exactly its declared count of (digit) fractional characters; the returned
value is the byte length when the frame fits the 512-byte region and 0
otherwise. -/
theorem serialize_state_spec (s : StatePayload) :
    (serializeState s
      = "\x7b\"type\":\"state\",\"payload\":\x7b" ++
        "\"rpm\":" ++ fmtFixed 2 s.rpm ++
        ",\"angle_rad\":" ++ fmtFixed 6 s.angleRad ++
        ",\"stress_pa\":" ++ fmtFixed 2 s.stressPa ++
        ",\"stress_factor\":" ++ fmtFixed 6 s.stressFactor ++
        ",\"piston_force_n\":" ++ fmtFixed 2 s.pistonForceN ++
        ",\"rod_force_n\":" ++ fmtFixed 2 s.rodForceN ++
        ",\"tangential_force_n\":" ++ fmtFixed 2 s.tangentialForceN ++
        ",\"torque_nm\":" ++ fmtFixed 4 s.torqueNm ++
        ",\"side_thrust_n\":" ++ fmtFixed 2 s.sideThrustN ++
        ",\"timestamp_ms\":" ++ Nat.repr s.timestampMs ++
        "\x7d\x7d") ∧
    (∀ (dg : Nat) (q : Rat), ∃ ip fp, fmtFixed dg q = ip ++ "." ++ fp ∧
        fp.length = dg ∧ ∀ c ∈ fp.data, c.isDigit = true) ∧
    ((serializeState s).length < 512 →
        serializeStateLen s = (serializeState s).length) ∧
    (512 ≤ (serializeState s).length → serializeStateLen s = 0) := by
  have hpos : 0 < (serializeState s).length := by
    have h2 : 0 < ("\x7d\x7d" : String).length := by decide
    simp only [serializeState, String.length_append]
    omega
  refine ⟨rfl, ?_, ?_, ?_⟩
  · intro dg q
    refine ⟨(if roundQ (q * (10 : Rat) ^ dg) < 0 then "-" else "")
        ++ Nat.repr ((roundQ (q * (10 : Rat) ^ dg)).natAbs / 10 ^ dg),
      fracDigitsStr dg ((roundQ (q * (10 : Rat) ^ dg)).natAbs % 10 ^ dg),
      ?_, fracDigitsStr_length _ _, fracDigitsStr_digits _ _⟩
    simp [fmtFixed, String.append_assoc]
  · intro h
    simp only [serializeStateLen]
    rw [if_pos ⟨hpos, h⟩]
  · intro h
    simp only [serializeStateLen]
    rw [if_neg (by omega : ¬(0 < (serializeState s).length ∧ (serializeState s).length < 512))]

set_option maxRecDepth 100000 in
/-- C6 witness: the all-zero payload fits (length returned); a payload
with every field at 1e38 overflows (0 returned). -/
theorem serialize_state_witness :
    serializeStateLen exPayloadSmall = (serializeState exPayloadSmall).length ∧
    serializeStateLen exPayloadBig = 0 :=
  ⟨(serialize_state_spec exPayloadSmall).2.2.1 (by with_unfolding_all decide),
   (serialize_state_spec exPayloadBig).2.2.2 (by with_unfolding_all decide)⟩

/-! ### Claim C7 — inbound decoding -/

/-- C7 counterexample: two concrete frames refute the claim as stated.
(1) `type = "replay"` with `payload.mode` present but numeric (the number
5): the claimed rule ("Replay exactly when payload.mode is present")
would yield a Replay command, yet `get<std::string>()` throws and the
frame is dropped. (2) `type = "set_rpm"` with `payload.rpm_target = true`:
not numeric (`get<uint64_t>`-style arithmetic reading rejects it), so the
claimed rule ("SetRpm exactly when rpm_target is numeric; every other
input yields no command") would drop the frame — yet `get<float>()`'s
generic arithmetic conversion accepts the boolean as `1.0f` and the code
yields SetRpm(1), which then mutates the engine's rpm target. -/
theorem parse_decode_cex :
    typeOf exReplayBadMode = some "replay" ∧
    modeFieldOf exReplayBadMode = some (.num 5) ∧
    parseClientMessage (some exReplayBadMode) = none ∧
    typeOf exSetRpmBoolTarget = some "set_rpm" ∧
    rpmTargetFieldOf exSetRpmBoolTarget = some (.bool true) ∧
    getNum (.bool true) = none ∧
    parseClientMessage (some exSetRpmBoolTarget) = some (mkSetRpmMsg 1) :=
  ⟨rfl, rfl, by decide, rfl, rfl, rfl, by decide⟩

/-- C7 (amended): the decoder yields SetRpm exactly when the frame
parses and `type` is `"set_rpm"` with a `payload.rpm_target` that is a
JSON number or a boolean (which `get<float>()`'s generic arithmetic
conversion accepts as 1.0/0.0); it yields Replay exactly when `type` is
`"replay"`, `payload.mode` is present as a string, and `payload.t_ms` is
either absent or a JSON number; every other input (including malformed
JSON, i.e. the `none` argument) yields no command; and a dropped frame
leaves the engine state unchanged. -/
theorem parse_client_message_spec :
    parseClientMessage none = none ∧
    (∀ j : Json, parseClientMessage (some j) = parseClientMessageSpec j) ∧
    (∀ es : EngineState, handleParsed es none = es) := by
  refine ⟨rfl, ?_, fun es => rfl⟩
  intro j
  simp only [parseClientMessage, parseClientMessageSpec, typeOf, rpmTargetOf,
    rpmTargetFieldOf, modeOf, modeFieldOf, tMsFieldOf]
  cases h1 : jGet j "type" with
  | none => simp
  | some t =>
    cases t with
    | null => simp [getStr]
    | bool b => simp [getStr]
    | num q => simp [getStr]
    | arr xs => simp [getStr]
    | obj kvs => simp [getStr]
    | str ts =>
      rw [Option.some_bind', show getStr (Json.str ts) = some ts from rfl]
      by_cases hs : ts = "set_rpm"
      · subst hs
        cases hq : ((jGet j "payload").bind fun p => jGet p "rpm_target").bind getFloat with
        | none => simp [hq]
        | some q => simp [hq]
      · by_cases hr : ts = "replay"
        · subst hr
          cases hp : jGet j "payload" with
          | none => simp [hs]
          | some p =>
            cases hm : (jGet p "mode").bind getStr with
            | none => simp [hs, hm]
            | some m =>
              cases ht : jGet p "t_ms" with
              | none => simp [hs, hm, ht]
              | some tj => cases hn : getNum tj <;> simp [hs, hm, ht, hn]
        · simp [hs, hr]
